import Mathlib

/-!
Verification model of the in-process job queue of the LinkedInHarvester
repository (`server/services/job-queue.ts`).

The `JobQueue` class holds an insertion-ordered map of jobs, runs one job
at a time in a cooperative loop (`startProcessing` / `getNextJob` /
`processJob`), extracts each item with bounded retry
(`extractProfileWithRetry`), classifies errors by substring matching
(`categorizeError`), and persists progress snapshots through the storage
collaborator (`updateJobStatus`, `createProfile`, `updateProfileStatus`).

The embedding below is state passing over an explicit `Sys` state; the
suspension points of the async code (between items, at batch boundaries,
between the last item and completion) become points between machine
commands, so client calls (`addJob`, `pauseJob`, `stopJob`, `resumeJob`)
can interleave with the processing loop exactly where the event loop of
the source allows them to.  Traces (`jobLog`, `attempts`, `thrown`,
`addedIds`) record the observable calls the source makes.
-/

/-- Job status values of the `ProcessingJob` interface. -/
inductive JobStatus where
  | pending
  | processing
  | paused
  | completed
  | failed
deriving DecidableEq, Repr

/-- Item (profile) record status values used by `updateProfileStatus`. -/
inductive PStatus where
  | pending
  | processing
  | success
  | failed
  | retrying
deriving DecidableEq, Repr

/-- Error kinds produced by `JobQueue.categorizeError`. -/
inductive ErrorType where
  | captcha
  | not_found
  | access_restricted
  | rate_limit
  | unknown
deriving DecidableEq, Repr

/-- `JobData` of the source: storage job id, user id, file path, batch size. -/
structure JobData where
  jobId : Nat
  userId : Nat
  filePath : String
  batchSize : Nat
deriving DecidableEq, Repr

/-- `ProcessingJob` of the source: queue id, data, status, retryCount. -/
structure ProcessingJob where
  id : Nat
  data : JobData
  status : JobStatus
  retryCount : Nat
deriving DecidableEq, Repr

/-- The queue's own state: `jobs` is the `Map<number, ProcessingJob>` kept in
insertion order (JS `Map` iteration order), `currentJobId` the id counter
(initialised to 1).  The `processing` boolean of the source is subsumed by
`Sys.run` below: the loop is active exactly while a job run is in flight or
being picked. -/
structure QueueState where
  jobs : List ProcessingJob
  currentJobId : Nat
deriving DecidableEq, Repr

/-- `this.jobs.get(i)`: first (and, for reachable states, only) job with id `i`. -/
def findJob (jobs : List ProcessingJob) (i : Nat) : Option ProcessingJob :=
  jobs.find? (fun j => j.id = i)

/-- In-place mutation `job.status = st` of the job object with id `i`. -/
def setStatus (jobs : List ProcessingJob) (i : Nat) (st : JobStatus) : List ProcessingJob :=
  jobs.map (fun j => if j.id = i then { j with status := st } else j)

/-- `JobQueue.addJob`: allocate `currentJobId++`, store the job with status
`'pending'` and `retryCount: 0`, return the id.  (The `startProcessing`
trigger is the separate `pick` command of the machine.) -/
def addJob (qs : QueueState) (d : JobData) : Nat × QueueState :=
  (qs.currentJobId,
   { jobs := qs.jobs ++ [{ id := qs.currentJobId, data := d, status := .pending, retryCount := 0 }],
     currentJobId := qs.currentJobId + 1 })

/-- `JobQueue.pauseJob`: if the job exists and is `'processing'`, set `'paused'`. -/
def pauseJob (qs : QueueState) (i : Nat) : QueueState :=
  match findJob qs.jobs i with
  | none => qs
  | some j =>
    if j.status = .processing then { qs with jobs := setStatus qs.jobs i .paused } else qs

/-- `JobQueue.stopJob`: if the job exists, set `'failed'` (whatever its status). -/
def stopJob (qs : QueueState) (i : Nat) : QueueState :=
  match findJob qs.jobs i with
  | none => qs
  | some _ => { qs with jobs := setStatus qs.jobs i .failed }

/-- `JobQueue.resumeJob`: if the job exists and is `'paused'`, set `'pending'`.
(The `startProcessing` trigger is the separate `pick` command.) -/
def resumeJob (qs : QueueState) (i : Nat) : QueueState :=
  match findJob qs.jobs i with
  | none => qs
  | some j =>
    if j.status = .paused then { qs with jobs := setStatus qs.jobs i .pending } else qs

/-- `JobQueue.getNextJob`: scan the map in insertion order, return the first
job whose status is `'pending'`. -/
def getNextJobList : List ProcessingJob → Option ProcessingJob
  | [] => none
  | j :: rest => if j.status = .pending then some j else getNextJobList rest

/-- `getNextJob` on the queue state. -/
def getNextJob (qs : QueueState) : Option ProcessingJob :=
  getNextJobList qs.jobs

/-- Whether the character list `pat` occurs contiguously inside `s`:
the `String.prototype.includes` of the source. -/
def isPrefixChars : List Char → List Char → Bool
  | [], _ => true
  | _ :: _, [] => false
  | a :: as, b :: bs => a = b && isPrefixChars as bs

/-- Substring occurrence test on character lists. -/
def containsChars (pat : List Char) : List Char → Bool
  | [] => pat.isEmpty
  | b :: bs => isPrefixChars pat (b :: bs) || containsChars pat bs

/-- `message.toLowerCase()` as a character list. -/
def lowerChars (s : String) : List Char :=
  s.toList.map Char.toLower

/-- `JobQueue.categorizeError` on an error message (the `Error` branch of the
source; a non-`Error` value yields `'unknown'`, which the model covers by the
final fallback since the extraction collaborator always raises messages). -/
def categorizeError (msg : String) : ErrorType :=
  let m := lowerChars msg
  if containsChars (String.toList "captcha") m || containsChars (String.toList "challenge") m then
    .captcha
  else if containsChars (String.toList "not_found") m || containsChars (String.toList "404") m then
    .not_found
  else if containsChars (String.toList "access_restricted") m || containsChars (String.toList "403") m then
    .access_restricted
  else if containsChars (String.toList "rate_limit") m || containsChars (String.toList "429") m then
    .rate_limit
  else
    .unknown

/-- Outcome of one call to `JobQueue.extractProfileWithRetry`.
`ok` is whether a profile was returned; `errMsg` the message of the error the
call threw when `ok = false`; `attempts` the number of extraction attempts
made; `delays` the backoff delays (ms) awaited between attempts, in order. -/
structure ExtractOutcome where
  ok : Bool
  errMsg : String
  attempts : Nat
  delays : List Nat
deriving DecidableEq, Repr

/-- Body of the `while (retryCount < maxRetries)` loop of
`extractProfileWithRetry`.  `outcome n` is the external extraction result of
attempt number `n` (`none` = a profile was returned, `some msg` = an error
with message `msg` was thrown).  `remaining = maxRetries - retryCount` drives
the recursion structurally: `remaining = 0` is the loop guard failing, and
the `remaining' = 0` test inside is the source's `retryCount >= maxRetries`
check after `retryCount++`. -/
def extractGo (outcome : Nat → Option String) (retryCount delayMs : Nat)
    (delays : List Nat) : Nat → ExtractOutcome
  | 0 => { ok := false, errMsg := "Max retries exceeded", attempts := retryCount, delays := delays }
  | remaining + 1 =>
    match outcome retryCount with
    | none => { ok := true, errMsg := "", attempts := retryCount + 1, delays := delays }
    | some msg =>
      let et := categorizeError msg
      if et = .access_restricted || et = .not_found then
        { ok := false, errMsg := msg, attempts := retryCount + 1, delays := delays }
      else if remaining = 0 then
        { ok := false, errMsg := msg, attempts := retryCount + 1, delays := delays }
      else
        extractGo outcome (retryCount + 1) (delayMs * 2) (delays ++ [delayMs]) remaining

/-- `JobQueue.extractProfileWithRetry`: up to `maxRetries` attempts, backoff
starting at 1000 ms and doubling after each failed retryable attempt. -/
def extractProfileWithRetry (outcome : Nat → Option String) (maxRetries : Nat) : ExtractOutcome :=
  extractGo outcome 0 1000 [] maxRetries

/-- One item (profile) record of the result sink, as created by
`storage.createProfile` and mutated by `storage.updateProfileStatus`. -/
structure ProfileRecord where
  id : Nat
  jobId : Nat
  linkedinUrl : String
  status : PStatus
  errorType : Option ErrorType
  errorMessage : Option String
deriving DecidableEq, Repr

/-- One `storage.updateJobStatus` call.  `qid` additionally records which
queue job made the call (pure trace instrumentation); `jobId` is the storage
job id argument; `counters` is `(processedProfiles, successfulProfiles,
failedProfiles)` when the call carried a progress snapshot, `none` for the
start / completion / failure updates that carry no counters. -/
structure LogEntry where
  qid : Nat
  jobId : Nat
  status : JobStatus
  counters : Option (Nat × Nat × Nat)
deriving DecidableEq, Repr

/-- The local state of one in-flight `processJob` run: the queue id of the
job, the index of the next item of `linkedinUrls` to process, and the local
`processed` / `successful` / `failed` counters. -/
structure RunState where
  qid : Nat
  idx : Nat
  processed : Nat
  successful : Nat
  failures : Nat
deriving DecidableEq, Repr

/-- The whole system state: queue state, the in-flight run (if any), the
result sink's profile records and id counter, and the observable traces
(`jobLog` = `updateJobStatus` calls, `attempts` = `(queue id, item index)`
per `extractProfileWithRetry` call, `thrown` = job-level errors caught by
`processJob`'s `catch`, `addedIds` = ids returned by `addJob`). -/
structure Sys where
  qs : QueueState
  run : Option RunState
  profiles : List ProfileRecord
  nextProfileId : Nat
  jobLog : List LogEntry
  attempts : List (Nat × Nat)
  thrown : List (Nat × String)
  addedIds : List Nat
deriving DecidableEq, Repr

/-- Per-job environment (the external collaborators): `urls` is what
`excelProcessor.parseLinkedInUrls` resolves for the job's file, `tokenPresent`
whether `storage.getUser(..).linkedinAccessToken` is set, and `outcome i n`
the result of attempt `n` of the extraction call for item `i` (`none` =
success, `some msg` = error with message `msg`). -/
structure JobEnv where
  urls : List String
  tokenPresent : Bool
  outcome : Nat → Nat → Option String

/-- The machine's commands: the four client calls of the `JobQueue` API plus
the three scheduler steps of the cooperative loop (`pick` = `getNextJob` and
the prologue of `processJob` up to the first batch; `stepItem` = one item of
the batch loop, including the batch-boundary cancellation check; `finish` =
the completion epilogue after the last batch). -/
inductive Cmd where
  | add (d : JobData)
  | pause (i : Nat)
  | stop (i : Nat)
  | resume (i : Nat)
  | pick
  | stepItem
  | finish
deriving Repr

/-- `storage.createProfile` for every parsed URL, in order: one `'pending'`
record per URL with consecutive ids from `startId`. -/
def mkRecords (jid startId : Nat) : List String → List ProfileRecord
  | [] => []
  | u :: rest =>
    { id := startId, jobId := jid, linkedinUrl := u, status := .pending,
      errorType := none, errorMessage := none } :: mkRecords jid (startId + 1) rest

/-- `profiles.find(p => p.linkedinUrl === url)` over `getProfilesByJob(jid)`:
the first record of job `jid` with the given URL. -/
def firstMatch (ps : List ProfileRecord) (jid : Nat) (url : String) : Option ProfileRecord :=
  ps.find? (fun p => p.jobId = jid && p.linkedinUrl = url)

/-- `storage.updateProfileStatus` on the record `find` located: update the
first record of job `jid` with the given URL (a no-op when none matches,
mirroring the source's `if (profileRecord)` guard). -/
def updateFirstRecord (ps : List ProfileRecord) (jid : Nat) (url : String)
    (f : ProfileRecord → ProfileRecord) : List ProfileRecord :=
  match ps with
  | [] => []
  | p :: rest =>
    if p.jobId = jid && p.linkedinUrl = url then f p :: rest
    else p :: updateFirstRecord rest jid url f

/-- The per-item success / failure bookkeeping of the batch loop: on success
mark the record `'success'`; on failure mark it `'failed'` with
`errorType = categorizeError(error)` and the error's message. -/
def applyItemResult (ps : List ProfileRecord) (jid : Nat) (url : String)
    (res : ExtractOutcome) : List ProfileRecord :=
  if res.ok then
    updateFirstRecord ps jid url (fun p => { p with status := .success })
  else
    updateFirstRecord ps jid url (fun p =>
      { p with status := .failed,
               errorType := some (categorizeError res.errMsg),
               errorMessage := some res.errMsg })

/-- The scheduler's `pick` step: `getNextJob`; if a pending job exists, the
prologue of `processJob` — set the in-memory status to `'processing'`,
persist the `'processing'` update, parse the URLs (throwing
`'No LinkedIn URLs found in the uploaded file'` when empty, caught by the
`catch` that marks the job `'failed'`), create one profile record per URL,
check the stored access token (throwing
`'LinkedIn authentication required'` when absent), and enter the batch loop
at item 0 with zeroed counters. -/
def applyPick (env : Nat → JobEnv) (s : Sys) : Sys :=
  match s.run with
  | some _ => s
  | none =>
    match getNextJob s.qs with
    | none => s
    | some j =>
      let e := env j.id
      let qs1 : QueueState := { s.qs with jobs := setStatus s.qs.jobs j.id .processing }
      let log1 := s.jobLog ++ [{ qid := j.id, jobId := j.data.jobId, status := .processing, counters := none }]
      if e.urls.isEmpty then
        { s with
          qs := { qs1 with jobs := setStatus qs1.jobs j.id .failed },
          jobLog := log1 ++ [{ qid := j.id, jobId := j.data.jobId, status := .failed, counters := none }],
          thrown := s.thrown ++ [(j.id, "No LinkedIn URLs found in the uploaded file")] }
      else
        let recs := mkRecords j.data.jobId s.nextProfileId e.urls
        if e.tokenPresent then
          { s with
            qs := qs1,
            jobLog := log1,
            profiles := s.profiles ++ recs,
            nextProfileId := s.nextProfileId + e.urls.length,
            run := some { qid := j.id, idx := 0, processed := 0, successful := 0, failures := 0 } }
        else
          { s with
            qs := { qs1 with jobs := setStatus qs1.jobs j.id .failed },
            jobLog := log1 ++ [{ qid := j.id, jobId := j.data.jobId, status := .failed, counters := none }],
            profiles := s.profiles ++ recs,
            nextProfileId := s.nextProfileId + e.urls.length,
            thrown := s.thrown ++ [(j.id, "LinkedIn authentication required")] }

/-- One step of the batch loop of `processJob`.  When the next item index is
a batch boundary (`i` a multiple of `batchSize`, the head of a `for` batch
iteration), the loop first re-reads `this.jobs.get(job.id)` and returns —
leaving every remaining record untouched — if the status is no longer
`'processing'`; otherwise the item is extracted with
`extractProfileWithRetry(…, 3)`, its record updated, the local counters
bumped, and the progress snapshot persisted. -/
def applyStepItem (env : Nat → JobEnv) (s : Sys) : Sys :=
  match s.run with
  | none => s
  | some r =>
    match findJob s.qs.jobs r.qid with
    | none => s
    | some j =>
      let e := env r.qid
      if r.idx < e.urls.length then
        if r.idx % j.data.batchSize = 0 ∧ j.status ≠ .processing then
          { s with run := none }
        else
          let url := e.urls.getD r.idx ""
          let res := extractProfileWithRetry (e.outcome r.idx) 3
          let ds := if res.ok then 1 else 0
          let df := if res.ok then 0 else 1
          let entry : LogEntry :=
            { qid := r.qid, jobId := j.data.jobId, status := .processing,
              counters := some (r.processed + 1, r.successful + ds, r.failures + df) }
          { s with
            profiles := applyItemResult s.profiles j.data.jobId url res,
            attempts := s.attempts ++ [(r.qid, r.idx)],
            jobLog := s.jobLog ++ [entry],
            run := some { r with idx := r.idx + 1,
                                 processed := r.processed + 1,
                                 successful := r.successful + ds,
                                 failures := r.failures + df } }
      else s

/-- The completion epilogue of `processJob`, reached when the batch loop ran
past the last item: set the in-memory status to `'completed'` and persist the
`'completed'` update (the export artifact reference it stores is elided). -/
def applyFinish (env : Nat → JobEnv) (s : Sys) : Sys :=
  match s.run with
  | none => s
  | some r =>
    match findJob s.qs.jobs r.qid with
    | none => s
    | some j =>
      if r.idx < (env r.qid).urls.length then s
      else
        { s with
          qs := { s.qs with jobs := setStatus s.qs.jobs r.qid .completed },
          jobLog := s.jobLog ++ [{ qid := r.qid, jobId := j.data.jobId, status := .completed, counters := none }],
          run := none }

/-- One machine command. -/
def stepCmd (env : Nat → JobEnv) (c : Cmd) (s : Sys) : Sys :=
  match c with
  | .add d =>
    let p := addJob s.qs d
    { s with qs := p.2, addedIds := s.addedIds ++ [p.1] }
  | .pause i => { s with qs := pauseJob s.qs i }
  | .stop i => { s with qs := stopJob s.qs i }
  | .resume i => { s with qs := resumeJob s.qs i }
  | .pick => applyPick env s
  | .stepItem => applyStepItem env s
  | .finish => applyFinish env s

/-- Run a command sequence. -/
def exec (env : Nat → JobEnv) : List Cmd → Sys → Sys
  | [], s => s
  | c :: cs, s => exec env cs (stepCmd env c s)

/-- The freshly constructed system: empty queue, `currentJobId = 1`, no run,
empty result sink. -/
def initSys : Sys :=
  { qs := { jobs := [], currentJobId := 1 },
    run := none, profiles := [], nextProfileId := 1,
    jobLog := [], attempts := [], thrown := [], addedIds := [] }

/-- Status of the queue job with id `i`. -/
def jobStatus (s : Sys) (i : Nat) : Option JobStatus :=
  (findJob s.qs.jobs i).map (fun j => j.status)

/-- Updating the first record of a job that matches a URL, with a function
that keeps the job id and URL, moves `find` to the updated record. -/
lemma firstMatch_update_found (ps : List ProfileRecord) (jid : Nat) (url : String)
    (f : ProfileRecord → ProfileRecord)
    (hf : ∀ q, (f q).jobId = q.jobId ∧ (f q).linkedinUrl = q.linkedinUrl) :
    ∀ p, firstMatch ps jid url = some p →
      firstMatch (updateFirstRecord ps jid url f) jid url = some (f p) := by
  induction ps with
  | nil => intro p hp; simp [firstMatch] at hp
  | cons q rest ih =>
    intro p hp
    by_cases hq : (q.jobId = jid ∧ q.linkedinUrl = url)
    · have hb : (q.jobId = jid && q.linkedinUrl = url) = true := by
        simp [hq.1, hq.2]
      simp [firstMatch, List.find?, hb] at hp
      simp [updateFirstRecord, hb, firstMatch, List.find?, ← hp,
        (hf q).1, (hf q).2, hq.1, hq.2]
    · have hb : (q.jobId = jid && q.linkedinUrl = url) = false := by
        rcases Decidable.not_and_iff_or_not.mp hq with h | h <;> simp [h]
      simp [firstMatch, List.find?, hb] at hp
      simp [updateFirstRecord, hb, firstMatch, List.find?]
      exact ih p hp

/-- A failed retryable attempt with budget left advances the retry loop:
one more retry count, doubled delay, the current delay awaited. -/
lemma extractGo_fail_step (outcome : Nat → Option String) (rc d : Nat) (ds : List Nat)
    (rem : Nat) (msg : String)
    (ho : outcome rc = some msg)
    (hr : categorizeError msg = ErrorType.rate_limit ∨
          categorizeError msg = ErrorType.unknown) :
    extractGo outcome rc d ds (rem + 2) =
      extractGo outcome (rc + 1) (d * 2) (ds ++ [d]) (rem + 1) := by
  rw [extractGo, ho]
  rcases hr with h | h <;> simp [h]

/-- A failed retryable attempt with the budget exhausted rethrows the last
error. -/
lemma extractGo_fail_last (outcome : Nat → Option String) (rc d : Nat) (ds : List Nat)
    (msg : String)
    (ho : outcome rc = some msg)
    (hr : categorizeError msg = ErrorType.rate_limit ∨
          categorizeError msg = ErrorType.unknown) :
    extractGo outcome rc d ds 1 =
      { ok := false, errMsg := msg, attempts := rc + 1, delays := ds } := by
  rw [extractGo, ho]
  rcases hr with h | h <;> simp [h]

/-- C3: an item whose extraction attempts keep failing with errors classified
`rate_limit` or `unknown` is attempted exactly 3 times (the `maxRetries = 3`
budget), the delays awaited before the two re-attempts are 1000 ms and
2000 ms — strictly increasing and following the doubling pattern
`1000 * 2 ^ k` — and after the budget is exhausted the item's record is
marked `failed` with the classified kind of the last error. -/
theorem retryable_error_three_attempts (msgs : Nat → String)
    (h : ∀ n, n < 3 →
      categorizeError (msgs n) = ErrorType.rate_limit ∨
      categorizeError (msgs n) = ErrorType.unknown) :
    extractProfileWithRetry (fun n => some (msgs n)) 3 =
      { ok := false, errMsg := msgs 2, attempts := 3, delays := [1000, 2000] } ∧
    List.Chain' (fun a b => a < b)
      (extractProfileWithRetry (fun n => some (msgs n)) 3).delays ∧
    (∀ k, k < (extractProfileWithRetry (fun n => some (msgs n)) 3).delays.length →
      (extractProfileWithRetry (fun n => some (msgs n)) 3).delays.getD k 0 = 1000 * 2 ^ k) ∧
    (∀ ps jid url p, firstMatch ps jid url = some p →
      firstMatch
        (applyItemResult ps jid url (extractProfileWithRetry (fun n => some (msgs n)) 3))
        jid url =
        some { p with status := .failed,
                      errorType := some (categorizeError (msgs 2)),
                      errorMessage := some (msgs 2) }) := by
  have hmain : extractProfileWithRetry (fun n => some (msgs n)) 3 =
      { ok := false, errMsg := msgs 2, attempts := 3, delays := [1000, 2000] } := by
    show extractGo (fun n => some (msgs n)) 0 1000 [] (1 + 2) = _
    rw [extractGo_fail_step (fun n => some (msgs n)) 0 1000 [] 1 (msgs 0) rfl (h 0 (by norm_num))]
    show extractGo (fun n => some (msgs n)) 1 2000 [1000] (0 + 2) = _
    rw [extractGo_fail_step (fun n => some (msgs n)) 1 2000 [1000] 0 (msgs 1) rfl (h 1 (by norm_num))]
    show extractGo (fun n => some (msgs n)) 2 4000 [1000, 2000] 1 = _
    rw [extractGo_fail_last (fun n => some (msgs n)) 2 4000 [1000, 2000] (msgs 2) rfl (h 2 (by norm_num))]
  refine ⟨hmain, ?_, ?_, ?_⟩
  · rw [hmain]; simp
  · rw [hmain]; intro k hk
    simp only [List.length_cons, List.length_nil] at hk
    rcases k with _ | _ | n
    · rfl
    · rfl
    · exact absurd hk (by omega)
  · intro ps jid url p hp
    rw [hmain]
    have := firstMatch_update_found ps jid url
      (fun q => { q with status := .failed,
                         errorType := some (categorizeError (msgs 2)),
                         errorMessage := some (msgs 2) })
      (fun q => ⟨rfl, rfl⟩) p hp
    simpa [applyItemResult, hmain] using this

/-- C4: an item whose first extraction attempt fails with an error classified
`not_found` or `access_restricted` is attempted exactly once — no delay is
awaited, no retry occurs — and its record is marked `failed` with that kind. -/
theorem terminal_error_single_attempt (outcome : Nat → Option String) (m : String)
    (h0 : outcome 0 = some m)
    (h : categorizeError m = ErrorType.not_found ∨
         categorizeError m = ErrorType.access_restricted) :
    extractProfileWithRetry outcome 3 =
      { ok := false, errMsg := m, attempts := 1, delays := [] } ∧
    (∀ ps jid url p, firstMatch ps jid url = some p →
      firstMatch (applyItemResult ps jid url (extractProfileWithRetry outcome 3)) jid url =
        some { p with status := .failed,
                      errorType := some (categorizeError m),
                      errorMessage := some m }) := by
  have hmain : extractProfileWithRetry outcome 3 =
      { ok := false, errMsg := m, attempts := 1, delays := [] } := by
    show extractGo outcome 0 1000 [] (2 + 1) = _
    rw [extractGo, h0]
    rcases h with hh | hh <;> simp [hh]
  refine ⟨hmain, ?_⟩
  intro ps jid url p hp
  rw [hmain]
  have := firstMatch_update_found ps jid url
    (fun q => { q with status := .failed,
                       errorType := some (categorizeError m),
                       errorMessage := some m })
    (fun q => ⟨rfl, rfl⟩) p hp
  simpa [applyItemResult, hmain] using this

/-- A rate-limited extraction environment for the C3 witness. -/
def msgsRL : Nat → String := fun _ => "HTTP 429: rate_limit reached"

/-- A pending record for the retry witnesses. -/
def recU : ProfileRecord :=
  { id := 1, jobId := 10, linkedinUrl := "https://x/p1", status := .pending,
    errorType := none, errorMessage := none }

/-- Witness for C3 at a concrete persistent rate-limit error. -/
theorem retryable_error_three_attempts_sample :
    extractProfileWithRetry (fun n => some (msgsRL n)) 3 =
      { ok := false, errMsg := msgsRL 2, attempts := 3, delays := [1000, 2000] } ∧
    firstMatch
      (applyItemResult [recU] 10 "https://x/p1"
        (extractProfileWithRetry (fun n => some (msgsRL n)) 3)) 10 "https://x/p1" =
      some { recU with status := .failed,
                       errorType := some ErrorType.rate_limit,
                       errorMessage := some (msgsRL 2) } := by
  have h := retryable_error_three_attempts msgsRL (by
    intro n hn; left
    show categorizeError "HTTP 429: rate_limit reached" = ErrorType.rate_limit
    decide)
  refine ⟨h.1, ?_⟩
  have h4 := h.2.2.2 [recU] 10 "https://x/p1" recU (by decide)
  rw [h4]
  have : categorizeError (msgsRL 2) = ErrorType.rate_limit := by decide
  rw [this]

/-- A not-found extraction environment for the C4 witness. -/
def outNF : Nat → Option String := fun _ => some "HTTP 404 page does not exist"

/-- Witness for C4 at a concrete not-found error. -/
theorem terminal_error_single_attempt_sample :
    extractProfileWithRetry outNF 3 =
      { ok := false, errMsg := "HTTP 404 page does not exist", attempts := 1, delays := [] } ∧
    firstMatch
      (applyItemResult [recU] 10 "https://x/p1" (extractProfileWithRetry outNF 3))
      10 "https://x/p1" =
      some { recU with status := .failed,
                       errorType := some ErrorType.not_found,
                       errorMessage := some "HTTP 404 page does not exist" } := by
  have h := terminal_error_single_attempt outNF "HTTP 404 page does not exist" rfl (by left; decide)
  refine ⟨h.1, ?_⟩
  have h2 := h.2 [recU] 10 "https://x/p1" recU (by decide)
  rw [h2]
  have : categorizeError "HTTP 404 page does not exist" = ErrorType.not_found := by decide
  rw [this]

lemma setStatus_map_id (l : List ProcessingJob) (i : Nat) (st : JobStatus) :
    (setStatus l i st).map (fun j => j.id) = l.map (fun j => j.id) := by
  unfold setStatus
  rw [List.map_map]
  congr 1
  funext j
  by_cases h : j.id = i <;> simp [h]

lemma findJob_mem (l : List ProcessingJob) (i : Nat) (j : ProcessingJob)
    (h : findJob l i = some j) : j ∈ l ∧ j.id = i := by
  unfold findJob at h
  refine ⟨List.mem_of_find?_eq_some h, ?_⟩
  have := List.find?_some h
  simpa using this

lemma findJob_unique (l : List ProcessingJob)
    (hn : (l.map (fun j => j.id)).Nodup) (i : Nat) (j : ProcessingJob)
    (hf : findJob l i = some j) :
    ∀ j2 ∈ l, j2.id = i → j2 = j := by
  induction l with
  | nil => intro j2 h2; simp at h2
  | cons q rest ih =>
    intro j2 h2 hid
    simp only [List.map_cons, List.nodup_cons] at hn
    by_cases hq : q.id = i
    · have hj : j = q := by
        unfold findJob at hf
        simp [List.find?, hq] at hf
        exact hf.symm
      rcases List.mem_cons.mp h2 with he | hrest
      · rw [he, hj]
      · exfalso
        apply hn.1
        rw [hq, ← hid]
        exact List.mem_map_of_mem (fun j => j.id) hrest
    · rcases List.mem_cons.mp h2 with he | hrest
      · exact absurd (he ▸ hid) hq
      · have hf2 : findJob rest i = some j := by
          unfold findJob at hf ⊢
          simpa [List.find?, hq] using hf
        exact ih hn.2 hf2 j2 hrest hid

lemma setStatus_setStatus (l : List ProcessingJob) (i : Nat) (st1 st2 : JobStatus) :
    setStatus (setStatus l i st1) i st2 = setStatus l i st2 := by
  unfold setStatus
  rw [List.map_map]
  congr 1
  funext j
  by_cases h : j.id = i <;> simp [h]

lemma getNextJobList_some (l : List ProcessingJob) (j : ProcessingJob)
    (h : getNextJobList l = some j) : j ∈ l ∧ j.status = .pending := by
  induction l with
  | nil => simp [getNextJobList] at h
  | cons q rest ih =>
    by_cases hq : q.status = .pending
    · simp [getNextJobList, hq] at h
      exact ⟨by simp [← h], by rw [← h]; exact hq⟩
    · simp [getNextJobList, hq] at h
      rcases ih h with ⟨hm, hs⟩
      exact ⟨List.mem_cons_of_mem q hm, hs⟩

lemma getNextJobList_first (l : List ProcessingJob) (j : ProcessingJob)
    (h : getNextJobList l = some j) :
    j.status = .pending ∧
    ∃ k : Nat, l[k]? = some j ∧
      ∀ m : Nat, m < k → ∀ j2 : ProcessingJob, l[m]? = some j2 → j2.status ≠ .pending := by
  induction l with
  | nil => simp [getNextJobList] at h
  | cons q rest ih =>
    by_cases hq : q.status = .pending
    · simp [getNextJobList, hq] at h
      subst h
      exact ⟨hq, 0, by simp, fun m hm => absurd hm (by omega)⟩
    · simp [getNextJobList, hq] at h
      rcases ih h with ⟨hp, k, hk, hbefore⟩
      refine ⟨hp, k + 1, by simpa using hk, ?_⟩
      intro m hm j2 hj2
      rcases m with _ | m2
      · simp at hj2
        rw [← hj2]
        exact hq
      · exact hbefore m2 (by omega) j2 (by simpa using hj2)

lemma getNextJobList_none (l : List ProcessingJob)
    (h : getNextJobList l = none) : ∀ j ∈ l, j.status ≠ .pending := by
  induction l with
  | nil => intro j hj; simp at hj
  | cons q rest ih =>
    intro j hj
    by_cases hq : q.status = .pending
    · simp [getNextJobList, hq] at h
    · simp [getNextJobList, hq] at h
      rcases List.mem_cons.mp hj with he | hr
      · rw [he]; exact hq
      · exact ih h j hr

/-- Core reachability invariant of the queue, over the three components it
constrains: job ids are pairwise distinct and below the id counter, the ids
handed out by `addJob` are strictly increasing and below the counter, and a
job can be `'processing'` only when it is the job of the in-flight run. -/
def InvC (qs : QueueState) (run : Option RunState) (addedIds : List Nat) : Prop :=
  (qs.jobs.map (fun j => j.id)).Nodup ∧
  (∀ j ∈ qs.jobs, j.id < qs.currentJobId) ∧
  List.Chain' (fun a b => a < b) addedIds ∧
  (∀ i ∈ addedIds, i < qs.currentJobId) ∧
  (run = none → ∀ j ∈ qs.jobs, j.status ≠ .processing) ∧
  (∀ r : RunState, run = some r → ∀ j ∈ qs.jobs, j.status = .processing → j.id = r.qid)

def SysInv (s : Sys) : Prop := InvC s.qs s.run s.addedIds

lemma mem_setStatus_elim {l : List ProcessingJob} {i : Nat} {st : JobStatus}
    {j2 : ProcessingJob} (h : j2 ∈ setStatus l i st) :
    ∃ j ∈ l, (j.id = i ∧ j2 = { j with status := st }) ∨ (j.id ≠ i ∧ j2 = j) := by
  unfold setStatus at h
  rcases List.mem_map.mp h with ⟨j, hj, he⟩
  by_cases hid : j.id = i
  · exact ⟨j, hj, Or.inl ⟨hid, by rw [← he]; simp [hid]⟩⟩
  · exact ⟨j, hj, Or.inr ⟨hid, by rw [← he]; simp [hid]⟩⟩

lemma invC_setStatus_nonproc (qs : QueueState) (run : Option RunState)
    (addedIds : List Nat) (i : Nat) (st : JobStatus)
    (hst : st ≠ .processing) (h : InvC qs run addedIds) :
    InvC { qs with jobs := setStatus qs.jobs i st } run addedIds := by
  obtain ⟨h1, h2, h3, h4, h5, h6⟩ := h
  refine ⟨by simpa [setStatus_map_id] using h1, ?_, h3, h4, ?_, ?_⟩
  · intro j2 hj2
    rcases mem_setStatus_elim hj2 with ⟨j, hj, ⟨_, he⟩ | ⟨_, he⟩⟩
    · rw [he]; exact h2 j hj
    · rw [he]; exact h2 j hj
  · intro hrn j2 hj2
    rcases mem_setStatus_elim hj2 with ⟨j, hj, ⟨_, he⟩ | ⟨_, he⟩⟩
    · rw [he]; simpa using hst
    · rw [he]; exact h5 hrn j hj
  · intro r hr j2 hj2 hp
    rcases mem_setStatus_elim hj2 with ⟨j, hj, ⟨_, he⟩ | ⟨_, he⟩⟩
    · rw [he] at hp; simp at hp; exact absurd hp hst
    · rw [he] at hp ⊢; exact h6 r hr j hj hp

lemma invC_pick_start (qs : QueueState) (addedIds : List Nat) (j : ProcessingJob)
    (r : RunState) (hq : r.qid = j.id) (h : InvC qs none addedIds) :
    InvC { qs with jobs := setStatus qs.jobs j.id .processing } (some r) addedIds := by
  obtain ⟨h1, h2, h3, h4, h5, h6⟩ := h
  refine ⟨by simpa [setStatus_map_id] using h1, ?_, h3, h4, by simp, ?_⟩
  · intro j2 hj2
    rcases mem_setStatus_elim hj2 with ⟨j0, hj0, ⟨_, he⟩ | ⟨_, he⟩⟩
    · rw [he]; exact h2 j0 hj0
    · rw [he]; exact h2 j0 hj0
  · intro r2 hr2 j2 hj2 hp
    have hr2e : r2 = r := by simpa using hr2.symm
    subst hr2e
    rcases mem_setStatus_elim hj2 with ⟨j0, hj0, ⟨hid, he⟩ | ⟨hid, he⟩⟩
    · rw [he]; simpa [hq] using hid
    · rw [he] at hp
      exact absurd hp (h5 rfl j0 hj0)

lemma invC_halt (qs : QueueState) (addedIds : List Nat) (r : RunState)
    (j : ProcessingJob) (hj : findJob qs.jobs r.qid = some j)
    (hnp : j.status ≠ .processing) (h : InvC qs (some r) addedIds) :
    InvC qs none addedIds := by
  obtain ⟨h1, h2, h3, h4, h5, h6⟩ := h
  refine ⟨h1, h2, h3, h4, ?_, by simp⟩
  intro _ j2 hj2 hp
  have hid : j2.id = r.qid := h6 r rfl j2 hj2 hp
  have : j2 = j := findJob_unique qs.jobs h1 r.qid j hj j2 hj2 hid
  rw [this] at hp
  exact hnp hp

lemma invC_run_update (qs : QueueState) (addedIds : List Nat) (r r2 : RunState)
    (hq : r2.qid = r.qid) (h : InvC qs (some r) addedIds) :
    InvC qs (some r2) addedIds := by
  obtain ⟨h1, h2, h3, h4, h5, h6⟩ := h
  refine ⟨h1, h2, h3, h4, by simp, ?_⟩
  intro r3 hr3 j2 hj2 hp
  have : r3 = r2 := by simpa using hr3.symm
  subst this
  rw [hq]
  exact h6 r rfl j2 hj2 hp

lemma invC_finish (qs : QueueState) (addedIds : List Nat) (r : RunState)
    (h : InvC qs (some r) addedIds) :
    InvC { qs with jobs := setStatus qs.jobs r.qid .completed } none addedIds := by
  obtain ⟨h1, h2, h3, h4, h5, h6⟩ := h
  refine ⟨by simpa [setStatus_map_id] using h1, ?_, h3, h4, ?_, by simp⟩
  · intro j2 hj2
    rcases mem_setStatus_elim hj2 with ⟨j0, hj0, ⟨_, he⟩ | ⟨_, he⟩⟩
    · rw [he]; exact h2 j0 hj0
    · rw [he]; exact h2 j0 hj0
  · intro _ j2 hj2 hp
    rcases mem_setStatus_elim hj2 with ⟨j0, hj0, ⟨hid, he⟩ | ⟨hid, he⟩⟩
    · rw [he] at hp; simp at hp
    · rw [he] at hp
      exact absurd (h6 r rfl j0 hj0 hp) (by rw [← he] at hid; exact fun hx => hid (he ▸ hx))

lemma invC_add (qs : QueueState) (run : Option RunState) (addedIds : List Nat)
    (d : JobData) (h : InvC qs run addedIds) :
    InvC (addJob qs d).2 run (addedIds ++ [(addJob qs d).1]) := by
  obtain ⟨h1, h2, h3, h4, h5, h6⟩ := h
  unfold addJob
  simp only
  refine ⟨?_, ?_, ?_, ?_, ?_, ?_⟩
  · rw [List.map_append, List.nodup_append]
    refine ⟨h1, by simp, ?_⟩
    intro a ha hb
    simp at hb
    rcases List.mem_map.mp ha with ⟨j, hj, he⟩
    have := h2 j hj
    omega
  · intro j hj
    rcases List.mem_append.mp hj with ho | hn
    · have := h2 j ho; simp; omega
    · simp at hn; rw [hn]; simp
  · rw [List.chain'_iff_pairwise, List.pairwise_append]
    refine ⟨List.chain'_iff_pairwise.mp h3, by simp, ?_⟩
    intro a ha b hb
    simp at hb
    rw [hb]
    exact h4 a ha
  · intro i hi
    rcases List.mem_append.mp hi with ho | hn
    · have := h4 i ho; simp; omega
    · simp at hn; rw [hn]; simp
  · intro hrn j hj
    rcases List.mem_append.mp hj with ho | hn
    · exact h5 hrn j ho
    · simp at hn; rw [hn]; simp
  · intro r hr j hj hp
    rcases List.mem_append.mp hj with ho | hn
    · exact h6 r hr j ho hp
    · simp at hn; rw [hn] at hp; simp at hp

lemma pauseJob_not_found (qs : QueueState) (i : Nat)
    (h : findJob qs.jobs i = none) : pauseJob qs i = qs := by
  simp only [pauseJob, h]

lemma pauseJob_found_proc (qs : QueueState) (i : Nat) (j : ProcessingJob)
    (h : findJob qs.jobs i = some j) (hp : j.status = .processing) :
    pauseJob qs i = { qs with jobs := setStatus qs.jobs i .paused } := by
  simp only [pauseJob, h]; simp [hp]

lemma pauseJob_found_other (qs : QueueState) (i : Nat) (j : ProcessingJob)
    (h : findJob qs.jobs i = some j) (hp : j.status ≠ .processing) :
    pauseJob qs i = qs := by
  simp only [pauseJob, h]; simp [hp]

lemma stopJob_not_found (qs : QueueState) (i : Nat)
    (h : findJob qs.jobs i = none) : stopJob qs i = qs := by
  simp only [stopJob, h]

lemma stopJob_found (qs : QueueState) (i : Nat) (j : ProcessingJob)
    (h : findJob qs.jobs i = some j) :
    stopJob qs i = { qs with jobs := setStatus qs.jobs i .failed } := by
  simp only [stopJob, h]

lemma resumeJob_not_found (qs : QueueState) (i : Nat)
    (h : findJob qs.jobs i = none) : resumeJob qs i = qs := by
  simp only [resumeJob, h]

lemma resumeJob_found_paused (qs : QueueState) (i : Nat) (j : ProcessingJob)
    (h : findJob qs.jobs i = some j) (hp : j.status = .paused) :
    resumeJob qs i = { qs with jobs := setStatus qs.jobs i .pending } := by
  simp only [resumeJob, h]; simp [hp]

lemma resumeJob_found_other (qs : QueueState) (i : Nat) (j : ProcessingJob)
    (h : findJob qs.jobs i = some j) (hp : j.status ≠ .paused) :
    resumeJob qs i = qs := by
  simp only [resumeJob, h]; simp [hp]

lemma applyPick_run (env : Nat → JobEnv) (s : Sys) (r : RunState)
    (hr : s.run = some r) : applyPick env s = s := by
  simp only [applyPick, hr]

lemma applyPick_idle (env : Nat → JobEnv) (s : Sys)
    (hr : s.run = none) (hn : getNextJob s.qs = none) : applyPick env s = s := by
  simp only [applyPick, hr, hn]

lemma applyPick_empty (env : Nat → JobEnv) (s : Sys) (j : ProcessingJob)
    (hr : s.run = none) (hn : getNextJob s.qs = some j)
    (he : (env j.id).urls.isEmpty = true) :
    applyPick env s =
      { s with
        qs := { s.qs with jobs := setStatus (setStatus s.qs.jobs j.id .processing) j.id .failed },
        jobLog := s.jobLog ++
          [{ qid := j.id, jobId := j.data.jobId, status := .processing, counters := none },
           { qid := j.id, jobId := j.data.jobId, status := .failed, counters := none }],
        thrown := s.thrown ++ [(j.id, "No LinkedIn URLs found in the uploaded file")] } := by
  simp only [applyPick, hr, hn]; simp [he]

lemma applyPick_start (env : Nat → JobEnv) (s : Sys) (j : ProcessingJob)
    (hr : s.run = none) (hn : getNextJob s.qs = some j)
    (he : (env j.id).urls.isEmpty = false) (ht : (env j.id).tokenPresent = true) :
    applyPick env s =
      { s with
        qs := { s.qs with jobs := setStatus s.qs.jobs j.id .processing },
        jobLog := s.jobLog ++
          [{ qid := j.id, jobId := j.data.jobId, status := .processing, counters := none }],
        profiles := s.profiles ++ mkRecords j.data.jobId s.nextProfileId (env j.id).urls,
        nextProfileId := s.nextProfileId + (env j.id).urls.length,
        run := some { qid := j.id, idx := 0, processed := 0, successful := 0, failures := 0 } } := by
  simp only [applyPick, hr, hn]; simp [he, ht]

lemma applyPick_no_token (env : Nat → JobEnv) (s : Sys) (j : ProcessingJob)
    (hr : s.run = none) (hn : getNextJob s.qs = some j)
    (he : (env j.id).urls.isEmpty = false) (ht : (env j.id).tokenPresent = false) :
    applyPick env s =
      { s with
        qs := { s.qs with jobs := setStatus (setStatus s.qs.jobs j.id .processing) j.id .failed },
        jobLog := s.jobLog ++
          [{ qid := j.id, jobId := j.data.jobId, status := .processing, counters := none },
           { qid := j.id, jobId := j.data.jobId, status := .failed, counters := none }],
        profiles := s.profiles ++ mkRecords j.data.jobId s.nextProfileId (env j.id).urls,
        nextProfileId := s.nextProfileId + (env j.id).urls.length,
        thrown := s.thrown ++ [(j.id, "LinkedIn authentication required")] } := by
  simp only [applyPick, hr, hn]; simp [he, ht]

lemma applyStepItem_norun (env : Nat → JobEnv) (s : Sys)
    (hr : s.run = none) : applyStepItem env s = s := by
  simp only [applyStepItem, hr]

lemma applyStepItem_nojob (env : Nat → JobEnv) (s : Sys) (r : RunState)
    (hr : s.run = some r) (hf : findJob s.qs.jobs r.qid = none) :
    applyStepItem env s = s := by
  simp only [applyStepItem, hr, hf]

lemma applyStepItem_past (env : Nat → JobEnv) (s : Sys) (r : RunState) (j : ProcessingJob)
    (hr : s.run = some r) (hf : findJob s.qs.jobs r.qid = some j)
    (hge : ¬ r.idx < (env r.qid).urls.length) :
    applyStepItem env s = s := by
  simp only [applyStepItem, hr, hf]; simp [hge]

lemma applyStepItem_halt (env : Nat → JobEnv) (s : Sys) (r : RunState) (j : ProcessingJob)
    (hr : s.run = some r) (hf : findJob s.qs.jobs r.qid = some j)
    (hlt : r.idx < (env r.qid).urls.length)
    (hb : r.idx % j.data.batchSize = 0) (hs : j.status ≠ .processing) :
    applyStepItem env s = { s with run := none } := by
  simp only [applyStepItem, hr, hf]; simp [hlt, hb, hs]

lemma applyStepItem_proc (env : Nat → JobEnv) (s : Sys) (r : RunState) (j : ProcessingJob)
    (hr : s.run = some r) (hf : findJob s.qs.jobs r.qid = some j)
    (hlt : r.idx < (env r.qid).urls.length)
    (hc : ¬ (r.idx % j.data.batchSize = 0 ∧ j.status ≠ .processing)) :
    applyStepItem env s =
      { s with
        profiles := applyItemResult s.profiles j.data.jobId ((env r.qid).urls.getD r.idx "")
          (extractProfileWithRetry ((env r.qid).outcome r.idx) 3),
        attempts := s.attempts ++ [(r.qid, r.idx)],
        jobLog := s.jobLog ++
          [{ qid := r.qid, jobId := j.data.jobId, status := .processing,
             counters := some (r.processed + 1,
               r.successful + (if (extractProfileWithRetry ((env r.qid).outcome r.idx) 3).ok then 1 else 0),
               r.failures + (if (extractProfileWithRetry ((env r.qid).outcome r.idx) 3).ok then 0 else 1)) }],
        run := some { r with idx := r.idx + 1,
                             processed := r.processed + 1,
                             successful := r.successful +
                               (if (extractProfileWithRetry ((env r.qid).outcome r.idx) 3).ok then 1 else 0),
                             failures := r.failures +
                               (if (extractProfileWithRetry ((env r.qid).outcome r.idx) 3).ok then 0 else 1) } } := by
  simp only [applyStepItem, hr, hf]; simp [hlt, hc]

lemma applyFinish_norun (env : Nat → JobEnv) (s : Sys)
    (hr : s.run = none) : applyFinish env s = s := by
  simp only [applyFinish, hr]

lemma applyFinish_nojob (env : Nat → JobEnv) (s : Sys) (r : RunState)
    (hr : s.run = some r) (hf : findJob s.qs.jobs r.qid = none) :
    applyFinish env s = s := by
  simp only [applyFinish, hr, hf]

lemma applyFinish_early (env : Nat → JobEnv) (s : Sys) (r : RunState) (j : ProcessingJob)
    (hr : s.run = some r) (hf : findJob s.qs.jobs r.qid = some j)
    (hlt : r.idx < (env r.qid).urls.length) :
    applyFinish env s = s := by
  simp only [applyFinish, hr, hf]; simp [hlt]

lemma applyFinish_done (env : Nat → JobEnv) (s : Sys) (r : RunState) (j : ProcessingJob)
    (hr : s.run = some r) (hf : findJob s.qs.jobs r.qid = some j)
    (hge : ¬ r.idx < (env r.qid).urls.length) :
    applyFinish env s =
      { s with
        qs := { s.qs with jobs := setStatus s.qs.jobs r.qid .completed },
        jobLog := s.jobLog ++
          [{ qid := r.qid, jobId := j.data.jobId, status := .completed, counters := none }],
        run := none } := by
  simp only [applyFinish, hr, hf]; simp [hge]

lemma sysInv_step (env : Nat → JobEnv) (c : Cmd) (s : Sys) (h : SysInv s) :
    SysInv (stepCmd env c s) := by
  cases c with
  | add d => exact invC_add s.qs s.run s.addedIds d h
  | pause i =>
    show InvC (pauseJob s.qs i) s.run s.addedIds
    cases hf : findJob s.qs.jobs i with
    | none => rw [pauseJob_not_found s.qs i hf]; exact h
    | some j =>
      by_cases hp : j.status = .processing
      · rw [pauseJob_found_proc s.qs i j hf hp]
        exact invC_setStatus_nonproc s.qs s.run s.addedIds i .paused (by simp) h
      · rw [pauseJob_found_other s.qs i j hf hp]; exact h
  | stop i =>
    show InvC (stopJob s.qs i) s.run s.addedIds
    cases hf : findJob s.qs.jobs i with
    | none => rw [stopJob_not_found s.qs i hf]; exact h
    | some j =>
      rw [stopJob_found s.qs i j hf]
      exact invC_setStatus_nonproc s.qs s.run s.addedIds i .failed (by simp) h
  | resume i =>
    show InvC (resumeJob s.qs i) s.run s.addedIds
    cases hf : findJob s.qs.jobs i with
    | none => rw [resumeJob_not_found s.qs i hf]; exact h
    | some j =>
      by_cases hp : j.status = .paused
      · rw [resumeJob_found_paused s.qs i j hf hp]
        exact invC_setStatus_nonproc s.qs s.run s.addedIds i .pending (by simp) h
      · rw [resumeJob_found_other s.qs i j hf hp]; exact h
  | pick =>
    show SysInv (applyPick env s)
    cases hr : s.run with
    | some r => rw [applyPick_run env s r hr]; exact h
    | none =>
      have h0 : InvC s.qs none s.addedIds := by rw [← hr]; exact h
      cases hn : getNextJob s.qs with
      | none => rw [applyPick_idle env s hr hn]; exact h
      | some j =>
        cases he : (env j.id).urls.isEmpty with
        | true =>
          rw [applyPick_empty env s j hr hn he]
          show InvC _ s.run s.addedIds
          rw [setStatus_setStatus, hr]
          exact invC_setStatus_nonproc s.qs none s.addedIds j.id .failed (by simp) h0
        | false =>
          cases ht : (env j.id).tokenPresent with
          | true =>
            rw [applyPick_start env s j hr hn he ht]
            exact invC_pick_start s.qs s.addedIds j _ rfl h0
          | false =>
            rw [applyPick_no_token env s j hr hn he ht]
            show InvC _ s.run s.addedIds
            rw [setStatus_setStatus, hr]
            exact invC_setStatus_nonproc s.qs none s.addedIds j.id .failed (by simp) h0
  | stepItem =>
    show SysInv (applyStepItem env s)
    cases hr : s.run with
    | none => rw [applyStepItem_norun env s hr]; exact h
    | some r =>
      have h0 : InvC s.qs (some r) s.addedIds := by rw [← hr]; exact h
      cases hf : findJob s.qs.jobs r.qid with
      | none => rw [applyStepItem_nojob env s r hr hf]; exact h
      | some j =>
        by_cases hlt : r.idx < (env r.qid).urls.length
        · by_cases hc : (r.idx % j.data.batchSize = 0 ∧ j.status ≠ .processing)
          · rw [applyStepItem_halt env s r j hr hf hlt hc.1 hc.2]
            exact invC_halt s.qs s.addedIds r j hf hc.2 h0
          · rw [applyStepItem_proc env s r j hr hf hlt hc]
            exact invC_run_update s.qs s.addedIds r _ rfl h0
        · rw [applyStepItem_past env s r j hr hf hlt]; exact h
  | finish =>
    show SysInv (applyFinish env s)
    cases hr : s.run with
    | none => rw [applyFinish_norun env s hr]; exact h
    | some r =>
      have h0 : InvC s.qs (some r) s.addedIds := by rw [← hr]; exact h
      cases hf : findJob s.qs.jobs r.qid with
      | none => rw [applyFinish_nojob env s r hr hf]; exact h
      | some j =>
        by_cases hlt : r.idx < (env r.qid).urls.length
        · rw [applyFinish_early env s r j hr hf hlt]; exact h
        · rw [applyFinish_done env s r j hr hf hlt]
          exact invC_finish s.qs s.addedIds r h0

lemma sysInv_exec (env : Nat → JobEnv) (cmds : List Cmd) :
    ∀ s : Sys, SysInv s → SysInv (exec env cmds s) := by
  induction cmds with
  | nil => intro s h; exact h
  | cons c cs ih => intro s h; exact ih (stepCmd env c s) (sysInv_step env c s h)

lemma sysInv_init : SysInv initSys := by
  refine ⟨by simp [initSys], by simp [initSys], by simp [initSys],
    by simp [initSys], by simp [initSys], by simp [initSys]⟩

lemma filter_proc_le_one (l : List ProcessingJob) (q : Nat)
    (hn : (l.map (fun j => j.id)).Nodup)
    (hq : ∀ j ∈ l, j.status = .processing → j.id = q) :
    (l.filter (fun j => decide (j.status = .processing))).length ≤ 1 := by
  induction l with
  | nil => simp
  | cons a rest ih =>
    simp only [List.map_cons, List.nodup_cons] at hn
    by_cases ha : a.status = .processing
    · have haq : a.id = q := hq a (List.mem_cons_self a rest) ha
      have hrest : ∀ j ∈ rest, ¬ (j.status = .processing) := by
        intro j hj hp
        have hjq : j.id = q := hq j (List.mem_cons_of_mem a hj) hp
        apply hn.1
        rw [haq, ← hjq]
        exact List.mem_map_of_mem (fun j => j.id) hj
      have : rest.filter (fun j => decide (j.status = .processing)) = [] := by
        rw [List.filter_eq_nil_iff]
        intro j hj
        simpa using hrest j hj
      simp [List.filter_cons, ha, this]
    · have : ∀ j ∈ rest, j.status = .processing → j.id = q := by
        intro j hj hp
        exact hq j (List.mem_cons_of_mem a hj) hp
      simp only [List.filter_cons, ha]
      simpa [ha] using ih hn.2 this

lemma sysInv_proc_count (s : Sys) (h : SysInv s) :
    (s.qs.jobs.filter (fun j => decide (j.status = .processing))).length ≤ 1 := by
  obtain ⟨h1, h2, h3, h4, h5, h6⟩ := h
  cases hr : s.run with
  | none =>
    have : s.qs.jobs.filter (fun j => decide (j.status = .processing)) = [] := by
      rw [List.filter_eq_nil_iff]
      intro j hj
      simpa using h5 hr j hj
    simp [this]
  | some r => exact filter_proc_le_one s.qs.jobs r.qid h1 (h6 r hr)

/-- C8: `getNextJob` returns the first job in insertion order whose status is
`'pending'` (and `none` exactly when no job is pending), and in every state
reachable by any command sequence from the initial queue at most one job has
status `'processing'`. -/
theorem fifo_selection_single_active (env : Nat → JobEnv) (cmds : List Cmd) :
    (∀ qs : QueueState, ∀ j : ProcessingJob, getNextJob qs = some j →
      j.status = .pending ∧
      ∃ k : Nat, qs.jobs[k]? = some j ∧
        ∀ m : Nat, m < k → ∀ j2 : ProcessingJob, qs.jobs[m]? = some j2 →
          j2.status ≠ .pending) ∧
    (∀ qs : QueueState, getNextJob qs = none → ∀ j ∈ qs.jobs, j.status ≠ .pending) ∧
    ((exec env cmds initSys).qs.jobs.filter
        (fun j => decide (j.status = .processing))).length ≤ 1 := by
  refine ⟨?_, ?_, ?_⟩
  · intro qs j h
    exact getNextJobList_first qs.jobs j h
  · intro qs h
    exact getNextJobList_none qs.jobs h
  · exact sysInv_proc_count _ (sysInv_exec env cmds initSys sysInv_init)

/-- A simple one-item job for the witnesses. -/
def dA : JobData := { jobId := 10, userId := 7, filePath := "a.xlsx", batchSize := 1 }

/-- An environment with one URL whose extraction always succeeds. -/
def envOne : Nat → JobEnv := fun _ =>
  { urls := ["https://x/p1"], tokenPresent := true, outcome := fun _ _ => none }

/-- Witness for C8 on a concrete queue state and command sequence. -/
theorem fifo_selection_single_active_sample :
    ((exec envOne [Cmd.add dA, Cmd.pick] initSys).qs.jobs.filter
        (fun j => decide (j.status = .processing))).length ≤ 1 ∧
    ProcessingJob.status
      { id := 1, data := dA, status := .pending, retryCount := 0 } = .pending := by
  have h := fifo_selection_single_active envOne [Cmd.add dA, Cmd.pick]
  refine ⟨h.2.2, ?_⟩
  have h2 := h.1 { jobs := [{ id := 1, data := dA, status := .pending, retryCount := 0 }], currentJobId := 2 }
    { id := 1, data := dA, status := .pending, retryCount := 0 } (by decide)
  exact h2.1

lemma findJob_append_fresh (l : List ProcessingJob) (x : ProcessingJob)
    (h : ∀ j ∈ l, j.id ≠ x.id) : findJob (l ++ [x]) x.id = some x := by
  induction l with
  | nil => simp [findJob, List.find?]
  | cons a rest ih =>
    have ha : (a.id = x.id) = False := by
      simp [h a (List.mem_cons_self a rest)]
    unfold findJob at ih ⊢
    simp only [List.cons_append, List.find?, ha]
    simpa using ih (fun j hj => h j (List.mem_cons_of_mem a hj))

/-- C10: after any command sequence, a further `addJob` returns the current
id counter — which is strictly greater than every id returned by an earlier
`addJob` call, so all returned ids are distinct and strictly increasing — and
the newly stored job has status `'pending'` and `retryCount` 0 regardless of
the submitted job data. -/
theorem addJob_fresh_increasing_ids (env : Nat → JobEnv) (cmds : List Cmd) (d : JobData) :
    (stepCmd env (Cmd.add d) (exec env cmds initSys)).addedIds =
      (exec env cmds initSys).addedIds ++ [(exec env cmds initSys).qs.currentJobId] ∧
    (∀ i ∈ (exec env cmds initSys).addedIds, i < (exec env cmds initSys).qs.currentJobId) ∧
    List.Chain' (fun a b => a < b) (stepCmd env (Cmd.add d) (exec env cmds initSys)).addedIds ∧
    findJob (stepCmd env (Cmd.add d) (exec env cmds initSys)).qs.jobs
        (exec env cmds initSys).qs.currentJobId =
      some { id := (exec env cmds initSys).qs.currentJobId, data := d,
             status := .pending, retryCount := 0 } := by
  have hinv : SysInv (exec env cmds initSys) := sysInv_exec env cmds initSys sysInv_init
  have hinv2 : SysInv (stepCmd env (Cmd.add d) (exec env cmds initSys)) :=
    sysInv_step env (Cmd.add d) (exec env cmds initSys) hinv
  refine ⟨rfl, hinv.2.2.2.1, hinv2.2.2.1, ?_⟩
  show findJob ((exec env cmds initSys).qs.jobs ++
    [{ id := (exec env cmds initSys).qs.currentJobId, data := d,
       status := .pending, retryCount := 0 }]) (exec env cmds initSys).qs.currentJobId = _
  exact findJob_append_fresh (exec env cmds initSys).qs.jobs _
    (fun j hj => Nat.ne_of_lt (hinv.2.1 j hj))

/-- Witness for C10 after one concrete submission. -/
theorem addJob_fresh_increasing_ids_sample :
    (stepCmd envOne (Cmd.add dA) (exec envOne [Cmd.add dA] initSys)).addedIds =
      (exec envOne [Cmd.add dA] initSys).addedIds ++ [2] ∧
    (1 : Nat) < 2 ∧
    List.Chain' (fun a b => a < b)
      (stepCmd envOne (Cmd.add dA) (exec envOne [Cmd.add dA] initSys)).addedIds ∧
    findJob (stepCmd envOne (Cmd.add dA) (exec envOne [Cmd.add dA] initSys)).qs.jobs 2 =
      some { id := 2, data := dA, status := .pending, retryCount := 0 } := by
  have h := addJob_fresh_increasing_ids envOne [Cmd.add dA] dA
  exact ⟨h.1, h.2.1 1 (by decide), h.2.2.1, h.2.2.2⟩

/-- C9: calling `pauseJob`, `stopJob` or `resumeJob` with a job id that is
not in the queue's map leaves the entire system state unchanged (the
functions are total, so the calls also complete without raising). -/
theorem ops_on_missing_id_noop (env : Nat → JobEnv) (s : Sys) (i : Nat)
    (h : findJob s.qs.jobs i = none) :
    stepCmd env (.pause i) s = s ∧
    stepCmd env (.stop i) s = s ∧
    stepCmd env (.resume i) s = s := by
  refine ⟨?_, ?_, ?_⟩ <;> simp [stepCmd, pauseJob, stopJob, resumeJob, h]

/-- Witness for C9: id 5 is absent from a queue holding one job. -/
theorem ops_on_missing_id_noop_sample :
    stepCmd envOne (.pause 5) (exec envOne [.add dA] initSys) = exec envOne [.add dA] initSys ∧
    stepCmd envOne (.stop 5) (exec envOne [.add dA] initSys) = exec envOne [.add dA] initSys ∧
    stepCmd envOne (.resume 5) (exec envOne [.add dA] initSys) = exec envOne [.add dA] initSys :=
  ops_on_missing_id_noop envOne (exec envOne [.add dA] initSys) 5 (by decide)

/-- Counter invariant: every persisted progress snapshot satisfies
`processed = successful + failed` and `processed ≤ total`, and the in-flight
run's local counters satisfy the same plus `idx = processed`. -/
def CountersOk (env : Nat → JobEnv) (s : Sys) : Prop :=
  (∀ e ∈ s.jobLog, ∀ p su f : Nat, e.counters = some (p, su, f) →
    p = su + f ∧ p ≤ (env e.qid).urls.length) ∧
  (∀ r : RunState, s.run = some r →
    r.processed = r.successful + r.failures ∧ r.idx = r.processed ∧
    r.idx ≤ (env r.qid).urls.length)

lemma countersOk_step (env : Nat → JobEnv) (c : Cmd) (s : Sys)
    (h : CountersOk env s) : CountersOk env (stepCmd env c s) := by
  obtain ⟨hlog, hrun⟩ := h
  cases c with
  | add d => exact ⟨hlog, hrun⟩
  | pause i => exact ⟨hlog, hrun⟩
  | stop i => exact ⟨hlog, hrun⟩
  | resume i => exact ⟨hlog, hrun⟩
  | pick =>
    show CountersOk env (applyPick env s)
    cases hr : s.run with
    | some r => rw [applyPick_run env s r hr]; exact ⟨hlog, hrun⟩
    | none =>
      cases hn : getNextJob s.qs with
      | none => rw [applyPick_idle env s hr hn]; exact ⟨hlog, hrun⟩
      | some j =>
        cases he : (env j.id).urls.isEmpty with
        | true =>
          rw [applyPick_empty env s j hr hn he]
          refine ⟨?_, ?_⟩
          · intro e he2 p su f hc
            rcases List.mem_append.mp he2 with ho | hn2
            · exact hlog e ho p su f hc
            · simp at hn2
              rcases hn2 with h1 | h1 <;> rw [h1] at hc <;> simp at hc
          · intro r hr2
            rw [hr] at hr2
            simp at hr2
        | false =>
          cases ht : (env j.id).tokenPresent with
          | true =>
            rw [applyPick_start env s j hr hn he ht]
            refine ⟨?_, ?_⟩
            · intro e he2 p su f hc
              rcases List.mem_append.mp he2 with ho | hn2
              · exact hlog e ho p su f hc
              · simp at hn2
                rw [hn2] at hc
                simp at hc
            · intro r hr2
              simp at hr2
              rw [← hr2]
              simp
          | false =>
            rw [applyPick_no_token env s j hr hn he ht]
            refine ⟨?_, ?_⟩
            · intro e he2 p su f hc
              rcases List.mem_append.mp he2 with ho | hn2
              · exact hlog e ho p su f hc
              · simp at hn2
                rcases hn2 with h1 | h1 <;> rw [h1] at hc <;> simp at hc
            · intro r hr2
              rw [hr] at hr2
              simp at hr2
  | stepItem =>
    show CountersOk env (applyStepItem env s)
    cases hr : s.run with
    | none => rw [applyStepItem_norun env s hr]; exact ⟨hlog, hrun⟩
    | some r =>
      cases hf : findJob s.qs.jobs r.qid with
      | none => rw [applyStepItem_nojob env s r hr hf]; exact ⟨hlog, hrun⟩
      | some j =>
        by_cases hlt : r.idx < (env r.qid).urls.length
        · by_cases hc : (r.idx % j.data.batchSize = 0 ∧ j.status ≠ .processing)
          · rw [applyStepItem_halt env s r j hr hf hlt hc.1 hc.2]
            exact ⟨hlog, by intro r2 hr2; simp at hr2⟩
          · rw [applyStepItem_proc env s r j hr hf hlt hc]
            obtain ⟨hp, hidx, hle⟩ := hrun r hr
            refine ⟨?_, ?_⟩
            · intro e he2 p su f hc2
              rcases List.mem_append.mp he2 with ho | hn2
              · exact hlog e ho p su f hc2
              · simp at hn2
                rw [hn2] at hc2 ⊢
                simp at hc2 ⊢
                obtain ⟨hcp, hcsu, hcf⟩ := hc2
                cases hok : (extractProfileWithRetry ((env r.qid).outcome r.idx) 3).ok <;>
                  simp [hok] at hcsu hcf <;> constructor <;> omega
            · intro r2 hr2
              simp at hr2
              rw [← hr2]
              refine ⟨?_, ?_, ?_⟩ <;>
                cases hok : (extractProfileWithRetry ((env r.qid).outcome r.idx) 3).ok <;>
                simp [hok] <;> omega
        · rw [applyStepItem_past env s r j hr hf hlt]; exact ⟨hlog, hrun⟩
  | finish =>
    show CountersOk env (applyFinish env s)
    cases hr : s.run with
    | none => rw [applyFinish_norun env s hr]; exact ⟨hlog, hrun⟩
    | some r =>
      cases hf : findJob s.qs.jobs r.qid with
      | none => rw [applyFinish_nojob env s r hr hf]; exact ⟨hlog, hrun⟩
      | some j =>
        by_cases hlt : r.idx < (env r.qid).urls.length
        · rw [applyFinish_early env s r j hr hf hlt]; exact ⟨hlog, hrun⟩
        · rw [applyFinish_done env s r j hr hf hlt]
          refine ⟨?_, by intro r2 hr2; simp at hr2⟩
          intro e he2 p su f hc2
          rcases List.mem_append.mp he2 with ho | hn2
          · exact hlog e ho p su f hc2
          · simp at hn2
            rw [hn2] at hc2
            simp at hc2

lemma countersOk_exec (env : Nat → JobEnv) (cmds : List Cmd) :
    ∀ s : Sys, CountersOk env s → CountersOk env (exec env cmds s) := by
  induction cmds with
  | nil => intro s h; exact h
  | cons c cs ih => intro s h; exact ih (stepCmd env c s) (countersOk_step env c s h)

/-- C1: in every reachable state, every persisted progress snapshot — each
`updateJobStatus` call of the batch loop that carries counters — satisfies
`processed = successful + failed` and `processed ≤ total items of the job`. -/
theorem job_counters_invariant (env : Nat → JobEnv) (cmds : List Cmd) :
    ∀ e ∈ (exec env cmds initSys).jobLog, ∀ p su f : Nat,
      e.counters = some (p, su, f) →
      p = su + f ∧ p ≤ (env e.qid).urls.length := by
  have h : CountersOk env (exec env cmds initSys) := by
    apply countersOk_exec
    exact ⟨by intro e he; simp [initSys] at he, by intro r hr; simp [initSys] at hr⟩
  exact h.1

/-- Witness for C1 at the snapshot written for the first item of a one-item
job. -/
theorem job_counters_invariant_sample :
    (1 : Nat) = 1 + 0 ∧ (1 : Nat) ≤ (envOne 1).urls.length :=
  job_counters_invariant envOne [Cmd.add dA, Cmd.pick, Cmd.stepItem]
    { qid := 1, jobId := 10, status := .processing, counters := some (1, 1, 0) }
    (by decide) 1 1 0 rfl

/-- `findJob` after `setStatus` with the same id sees the job with the new
status. -/
lemma findJob_setStatus_self (l : List ProcessingJob) (i : Nat) (st : JobStatus) :
    findJob (setStatus l i st) i = (findJob l i).map (fun j => { j with status := st }) := by
  induction l with
  | nil => simp [findJob, setStatus, List.find?]
  | cons a rest ih =>
    by_cases ha : a.id = i
    · simp [findJob, setStatus, List.find?, ha]
    · unfold findJob setStatus at ih ⊢
      simp only [List.map_cons, List.find?, ha, if_false]
      simpa [ha] using ih

/-- An environment resolving no URLs at all. -/
def envNil : Nat → JobEnv := fun _ =>
  { urls := [], tokenPresent := true, outcome := fun _ _ => none }

/-- Counterexample to C5 as stated: a job whose file resolves to 0 URLs does
fail with the `'No LinkedIn URLs found in the uploaded file'` error, but its
status is set to `'processing'` — and persisted as such — before the URL
list is inspected, so the status does take the value `processing`. -/
theorem empty_job_reaches_processing_cex :
    (exec envNil [Cmd.add dA, Cmd.pick] initSys).jobLog.map (fun e => e.status) =
      [JobStatus.processing, JobStatus.failed] ∧
    (exec envNil [Cmd.add dA, Cmd.pick] initSys).thrown =
      [(1, "No LinkedIn URLs found in the uploaded file")] ∧
    jobStatus (exec envNil [Cmd.add dA, Cmd.pick] initSys) 1 = some JobStatus.failed := by
  refine ⟨?_, ?_, ?_⟩ <;> decide

/-- Some job with the given id exists whenever a member has that id. -/
lemma findJob_isSome_of_mem (l : List ProcessingJob) (j : ProcessingJob)
    (hmem : j ∈ l) : ∃ j2, findJob l j.id = some j2 := by
  have h1 : (l.find? (fun j2 => decide (j2.id = j.id))).isSome = true :=
    List.find?_isSome.mpr ⟨j, hmem, by simp⟩
  exact Option.isSome_iff_exists.mp h1

/-- C5 as amended: when the queue picks a job whose file resolves to 0 URLs,
the run aborts before creating any item record or attempting any item and the
job ends `failed`, with the `'No LinkedIn URLs found in the uploaded file'`
error caught — but only after its status was first set to `'processing'` and
persisted: the two persisted updates are `processing` then `failed`, so the
job does (transiently) reach `processing`. -/
theorem empty_job_fails_after_processing_mark (env : Nat → JobEnv) (s : Sys)
    (j : ProcessingJob) (hrun : s.run = none) (hnext : getNextJob s.qs = some j)
    (hurls : (env j.id).urls = []) :
    jobStatus (stepCmd env Cmd.pick s) j.id = some JobStatus.failed ∧
    (stepCmd env Cmd.pick s).jobLog = s.jobLog ++
      [{ qid := j.id, jobId := j.data.jobId, status := .processing, counters := none },
       { qid := j.id, jobId := j.data.jobId, status := .failed, counters := none }] ∧
    (stepCmd env Cmd.pick s).thrown = s.thrown ++
      [(j.id, "No LinkedIn URLs found in the uploaded file")] ∧
    (stepCmd env Cmd.pick s).profiles = s.profiles ∧
    (stepCmd env Cmd.pick s).attempts = s.attempts ∧
    (stepCmd env Cmd.pick s).run = none := by
  have he : (env j.id).urls.isEmpty = true := by simp [hurls]
  have hstep : stepCmd env Cmd.pick s = applyPick env s := rfl
  rw [hstep, applyPick_empty env s j hrun hnext he]
  refine ⟨?_, by simp, rfl, rfl, rfl, hrun⟩
  show (findJob (setStatus (setStatus s.qs.jobs j.id .processing) j.id .failed) j.id).map
      (fun j2 => j2.status) = some JobStatus.failed
  rw [setStatus_setStatus, findJob_setStatus_self]
  obtain ⟨j2, hj2⟩ :=
    findJob_isSome_of_mem s.qs.jobs j (getNextJobList_some s.qs.jobs j hnext).1
  rw [hj2]
  simp

/-- Witness for the amended C5 at a concrete empty-file job. -/
theorem empty_job_fails_after_processing_mark_sample :
    jobStatus (stepCmd envNil Cmd.pick (exec envNil [Cmd.add dA] initSys)) 1 =
      some JobStatus.failed ∧
    (stepCmd envNil Cmd.pick (exec envNil [Cmd.add dA] initSys)).jobLog =
      (exec envNil [Cmd.add dA] initSys).jobLog ++
      [{ qid := 1, jobId := dA.jobId, status := .processing, counters := none },
       { qid := 1, jobId := dA.jobId, status := .failed, counters := none }] ∧
    (stepCmd envNil Cmd.pick (exec envNil [Cmd.add dA] initSys)).thrown =
      (exec envNil [Cmd.add dA] initSys).thrown ++
      [(1, "No LinkedIn URLs found in the uploaded file")] ∧
    (stepCmd envNil Cmd.pick (exec envNil [Cmd.add dA] initSys)).profiles =
      (exec envNil [Cmd.add dA] initSys).profiles ∧
    (stepCmd envNil Cmd.pick (exec envNil [Cmd.add dA] initSys)).attempts =
      (exec envNil [Cmd.add dA] initSys).attempts ∧
    (stepCmd envNil Cmd.pick (exec envNil [Cmd.add dA] initSys)).run = none :=
  empty_job_fails_after_processing_mark envNil (exec envNil [Cmd.add dA] initSys)
    { id := 1, data := dA, status := .pending, retryCount := 0 }
    (by decide) (by decide) (by decide)

/-- A completed one-item job: submitted, picked, its single item processed,
and the completion epilogue run. -/
def sDone : Sys := exec envOne [Cmd.add dA, Cmd.pick, Cmd.stepItem, Cmd.finish] initSys

/-- If a job is found in a prefix, appending jobs does not change the find. -/
lemma findJob_append_left (l l2 : List ProcessingJob) (i : Nat) (j : ProcessingJob)
    (h : findJob l i = some j) : findJob (l ++ l2) i = some j := by
  induction l with
  | nil => simp [findJob, List.find?] at h
  | cons a rest ih =>
    unfold findJob at h ih ⊢
    cases ha : decide (a.id = i) with
    | true => simpa [List.find?, ha] using h
    | false =>
      simp only [List.cons_append, List.find?, ha]
      exact ih (by simpa [List.find?, ha] using h)

/-- Counterexample to C6 as stated: two reachable transitions out of terminal
states.  (a) `stopJob` guards only on existence, so stopping the completed
job of `sDone` moves it to `failed`.  (b) stopping a one-item job after its
item was processed but before the epilogue ran sets it `failed`, yet the
completion epilogue that follows sets — and persists — `completed`
unconditionally, moving the job out of `failed` again. -/
theorem stop_and_finish_cross_terminal_cex :
    jobStatus sDone 1 = some JobStatus.completed ∧
    jobStatus (stepCmd envOne (Cmd.stop 1) sDone) 1 = some JobStatus.failed ∧
    jobStatus (exec envOne [Cmd.add dA, Cmd.pick, Cmd.stepItem, Cmd.stop 1] initSys) 1 =
      some JobStatus.failed ∧
    jobStatus (exec envOne [Cmd.add dA, Cmd.pick, Cmd.stepItem, Cmd.stop 1, Cmd.finish]
      initSys) 1 = some JobStatus.completed ∧
    (exec envOne [Cmd.add dA, Cmd.pick, Cmd.stepItem, Cmd.stop 1, Cmd.finish]
      initSys).jobLog.map (fun e => e.status) =
      [JobStatus.processing, JobStatus.processing, JobStatus.completed] := by
  refine ⟨?_, ?_, ?_, ?_, ?_⟩ <;> decide

/-- C6 as amended: `pauseJob`, `resumeJob` and `addJob` never change a
terminal (`completed` or `failed`) job's record, the queue's selection never
picks a terminal job (only `pending` ones), and `stopJob` leaves a `failed`
job `failed`.  The two deviations from the claimed absorption: `stopJob`
guards only on existence, so it moves a `completed` job to `failed`; and the
completion epilogue of a run that has passed its last item sets the job to
`completed` whatever its current status — so a job stopped (hence `failed`)
during its final batch is overwritten back to `completed` when the loop
exits. -/
theorem terminal_states_transitions (env : Nat → JobEnv) (s : Sys) (i : Nat)
    (j : ProcessingJob) (hfind : findJob s.qs.jobs i = some j)
    (hterm : j.status = .completed ∨ j.status = .failed) :
    stepCmd env (Cmd.pause i) s = s ∧
    stepCmd env (Cmd.resume i) s = s ∧
    jobStatus (stepCmd env (Cmd.stop i) s) i = some JobStatus.failed ∧
    (∀ qs2 : QueueState, ∀ j2 : ProcessingJob, getNextJob qs2 = some j2 →
      j2.status = .pending) ∧
    (∀ d : JobData, findJob (stepCmd env (Cmd.add d) s).qs.jobs i = some j) ∧
    (∀ s2 : Sys, ∀ r : RunState, ∀ j2 : ProcessingJob,
      s2.run = some r → findJob s2.qs.jobs r.qid = some j2 →
      ¬ r.idx < (env r.qid).urls.length →
      jobStatus (stepCmd env Cmd.finish s2) r.qid = some JobStatus.completed) := by
  refine ⟨?_, ?_, ?_, ?_, ?_, ?_⟩
  · show { s with qs := pauseJob s.qs i } = s
    rw [pauseJob_found_other s.qs i j hfind (by rcases hterm with h | h <;> simp [h])]
  · show { s with qs := resumeJob s.qs i } = s
    rw [resumeJob_found_other s.qs i j hfind (by rcases hterm with h | h <;> simp [h])]
  · show (findJob (stopJob s.qs i).jobs i).map (fun j2 => j2.status) = some JobStatus.failed
    rw [stopJob_found s.qs i j hfind]
    show (findJob (setStatus s.qs.jobs i .failed) i).map (fun j2 => j2.status) = _
    rw [findJob_setStatus_self, hfind]
    simp
  · intro qs2 j2 h2
    exact (getNextJobList_some qs2.jobs j2 h2).2
  · intro d
    exact findJob_append_left s.qs.jobs _ i j hfind
  · intro s2 r j2 hrun2 hfind2 hge
    have hstep : stepCmd env Cmd.finish s2 = applyFinish env s2 := rfl
    rw [hstep, applyFinish_done env s2 r j2 hrun2 hfind2 hge]
    show (findJob (setStatus s2.qs.jobs r.qid .completed) r.qid).map
      (fun j3 => j3.status) = some JobStatus.completed
    rw [findJob_setStatus_self, hfind2]
    simp

/-- Witness for the amended C6 at the concrete completed job of `sDone` and,
for the epilogue conjunct, at the concrete one-item job stopped after its
item was processed. -/
theorem terminal_states_transitions_sample :
    stepCmd envOne (Cmd.pause 1) sDone = sDone ∧
    stepCmd envOne (Cmd.resume 1) sDone = sDone ∧
    jobStatus (stepCmd envOne (Cmd.stop 1) sDone) 1 = some JobStatus.failed ∧
    ProcessingJob.status { id := 1, data := dA, status := .pending, retryCount := 0 } =
      .pending ∧
    findJob (stepCmd envOne (Cmd.add dA) sDone).qs.jobs 1 =
      some { id := 1, data := dA, status := .completed, retryCount := 0 } ∧
    jobStatus (stepCmd envOne Cmd.finish
      (exec envOne [Cmd.add dA, Cmd.pick, Cmd.stepItem, Cmd.stop 1] initSys)) 1 =
      some JobStatus.completed := by
  have h := terminal_states_transitions envOne sDone 1
    { id := 1, data := dA, status := .completed, retryCount := 0 }
    (by decide) (Or.inl rfl)
  refine ⟨h.1, h.2.1, h.2.2.1, ?_, h.2.2.2.2.1 dA, ?_⟩
  · exact h.2.2.2.1
      { jobs := [{ id := 1, data := dA, status := .pending, retryCount := 0 }], currentJobId := 2 }
      { id := 1, data := dA, status := .pending, retryCount := 0 } (by decide)
  · exact h.2.2.2.2.2
      (exec envOne [Cmd.add dA, Cmd.pick, Cmd.stepItem, Cmd.stop 1] initSys)
      { qid := 1, idx := 1, processed := 1, successful := 1, failures := 0 }
      { id := 1, data := dA, status := .failed, retryCount := 0 }
      (by decide) (by decide) (by decide)

/-- An environment resolving two URLs whose extraction always succeeds. -/
def envTwo : Nat → JobEnv := fun _ =>
  { urls := ["https://x/p1", "https://x/p2"], tokenPresent := true,
    outcome := fun _ _ => none }

/-- Counterexample to C2 as stated: a two-item job processes item 0
(its record becomes `success`), is paused, then resumed.  The queue picks it
up again and the run restarts at item index 0 — re-attempting the already
successful item 0, as the `attempts` trace `[(1, 0), (1, 0)]` shows — and
`createProfile` runs again for every URL, leaving 4 records for 2 URLs. -/
theorem resume_restarts_with_duplicates_cex :
    (exec envTwo [Cmd.add dA, Cmd.pick, Cmd.stepItem, Cmd.pause 1, Cmd.stepItem]
        initSys).profiles.map (fun p => p.status) = [.success, .pending] ∧
    (exec envTwo [Cmd.add dA, Cmd.pick, Cmd.stepItem, Cmd.pause 1, Cmd.stepItem,
        Cmd.resume 1, Cmd.pick, Cmd.stepItem] initSys).attempts = [(1, 0), (1, 0)] ∧
    (exec envTwo [Cmd.add dA, Cmd.pick, Cmd.stepItem, Cmd.pause 1, Cmd.stepItem,
        Cmd.resume 1, Cmd.pick, Cmd.stepItem] initSys).profiles.length = 4 := by
  refine ⟨?_, ?_, ?_⟩ <;> decide

/-- `createProfile` is called once per URL. -/
lemma mkRecords_length (jid startId : Nat) (urls : List String) :
    (mkRecords jid startId urls).length = urls.length := by
  induction urls generalizing startId with
  | nil => simp [mkRecords]
  | cons u rest ih => simp [mkRecords, ih]

/-- C2 as amended: `resumeJob` moves a paused job back to `pending`, and when
the queue picks it up again `processJob` re-runs from scratch: the run
restarts at item index 0 with zeroed counters, and a fresh `pending` record
is appended for every URL of the job — duplicating the records of the first
run — with already-terminal items re-attempted rather than skipped. -/
theorem resume_restarts_from_scratch (env : Nat → JobEnv) :
    (∀ s : Sys, ∀ i : Nat, ∀ j : ProcessingJob,
      findJob s.qs.jobs i = some j → j.status = .paused →
      jobStatus (stepCmd env (Cmd.resume i) s) i = some JobStatus.pending) ∧
    (∀ s : Sys, ∀ j : ProcessingJob, s.run = none → getNextJob s.qs = some j →
      (env j.id).urls.isEmpty = false → (env j.id).tokenPresent = true →
      (stepCmd env Cmd.pick s).run =
        some { qid := j.id, idx := 0, processed := 0, successful := 0, failures := 0 } ∧
      (stepCmd env Cmd.pick s).profiles =
        s.profiles ++ mkRecords j.data.jobId s.nextProfileId (env j.id).urls ∧
      (stepCmd env Cmd.pick s).profiles.length =
        s.profiles.length + (env j.id).urls.length) := by
  constructor
  · intro s i j hfind hp
    show (findJob (resumeJob s.qs i).jobs i).map (fun j2 => j2.status) = some JobStatus.pending
    rw [resumeJob_found_paused s.qs i j hfind hp]
    show (findJob (setStatus s.qs.jobs i .pending) i).map (fun j2 => j2.status) = _
    rw [findJob_setStatus_self, hfind]
    simp
  · intro s j hrun hnext he ht
    have hstep : stepCmd env Cmd.pick s = applyPick env s := rfl
    rw [hstep, applyPick_start env s j hrun hnext he ht]
    exact ⟨rfl, rfl, by simp [mkRecords_length]⟩

/-- Witness for the amended C2: the paused two-item job of the
counterexample, resumed and re-picked. -/
theorem resume_restarts_from_scratch_sample :
    jobStatus (stepCmd envTwo (Cmd.resume 1)
      (exec envTwo [Cmd.add dA, Cmd.pick, Cmd.stepItem, Cmd.pause 1, Cmd.stepItem]
        initSys)) 1 = some JobStatus.pending ∧
    (stepCmd envTwo Cmd.pick
      (exec envTwo [Cmd.add dA, Cmd.pick, Cmd.stepItem, Cmd.pause 1, Cmd.stepItem,
        Cmd.resume 1] initSys)).run =
      some { qid := 1, idx := 0, processed := 0, successful := 0, failures := 0 } ∧
    (stepCmd envTwo Cmd.pick
      (exec envTwo [Cmd.add dA, Cmd.pick, Cmd.stepItem, Cmd.pause 1, Cmd.stepItem,
        Cmd.resume 1] initSys)).profiles.length =
      (exec envTwo [Cmd.add dA, Cmd.pick, Cmd.stepItem, Cmd.pause 1, Cmd.stepItem,
        Cmd.resume 1] initSys).profiles.length + 2 := by
  have h := resume_restarts_from_scratch envTwo
  have h1 := h.1 (exec envTwo [Cmd.add dA, Cmd.pick, Cmd.stepItem, Cmd.pause 1, Cmd.stepItem]
    initSys) 1 { id := 1, data := dA, status := .paused, retryCount := 0 } (by decide) rfl
  have h2 := h.2 (exec envTwo [Cmd.add dA, Cmd.pick, Cmd.stepItem, Cmd.pause 1, Cmd.stepItem,
    Cmd.resume 1] initSys) { id := 1, data := dA, status := .pending, retryCount := 0 }
    (by decide) (by decide) (by decide) (by decide)
  exact ⟨h1, h2.1, h2.2.2⟩

/-- The item indices a run attempts from `a`, `t` items in a row, as recorded
in the `attempts` trace. -/
def attemptSeq (q a t : Nat) : List (Nat × Nat) :=
  match t with
  | 0 => []
  | t2 + 1 => (q, a) :: attemptSeq q (a + 1) t2

/-- Updating the first record matching one URL leaves the `find` result for
any other URL unchanged. -/
lemma firstMatch_update_other (ps : List ProfileRecord) (jid : Nat) (url url2 : String)
    (f : ProfileRecord → ProfileRecord) (hne : url ≠ url2)
    (hf : ∀ q, (f q).jobId = q.jobId ∧ (f q).linkedinUrl = q.linkedinUrl) :
    firstMatch (updateFirstRecord ps jid url f) jid url2 = firstMatch ps jid url2 := by
  induction ps with
  | nil => simp [updateFirstRecord]
  | cons p rest ih =>
    by_cases hp : (p.jobId = jid ∧ p.linkedinUrl = url)
    · have hb : (p.jobId = jid && p.linkedinUrl = url) = true := by
        simp [hp.1, hp.2]
      have hb2 : ((f p).jobId = jid && (f p).linkedinUrl = url2) = false := by
        simp [(hf p).2, hp.2]
        intro _
        exact fun hx => hne (hx ▸ rfl)
      have hb3 : (p.jobId = jid && p.linkedinUrl = url2) = false := by
        simp [hp.2]
        intro _
        exact fun hx => hne (hx ▸ rfl)
      simp [updateFirstRecord, hb, firstMatch, List.find?, hb2, hb3]
    · have hb : (p.jobId = jid && p.linkedinUrl = url) = false := by
        rcases Decidable.not_and_iff_or_not.mp hp with h | h <;> simp [h]
      simp only [updateFirstRecord, hb, if_false]
      simp only [firstMatch, List.find?] at ih ⊢
      cases hb4 : (decide (p.jobId = jid) && decide (p.linkedinUrl = url2)) with
      | true => rfl
      | false => exact ih

/-- The per-item record update of the batch loop leaves the `find` result for
any other URL unchanged. -/
lemma applyItemResult_other (ps : List ProfileRecord) (jid : Nat) (url url2 : String)
    (res : ExtractOutcome) (hne : url ≠ url2) :
    firstMatch (applyItemResult ps jid url res) jid url2 = firstMatch ps jid url2 := by
  unfold applyItemResult
  cases res.ok with
  | true =>
    simp only [if_true]
    exact firstMatch_update_other ps jid url url2 _ hne (fun q => ⟨rfl, rfl⟩)
  | false =>
    simp only [Bool.false_eq_true, if_false]
    exact firstMatch_update_other ps jid url url2 _ hne (fun q => ⟨rfl, rfl⟩)

/-- Distinct positions of a duplicate-free URL list hold distinct URLs. -/
lemma nodup_getD_ne (l : List String) (h : l.Nodup) (a b : Nat)
    (ha : a < l.length) (hb : b < l.length) (hab : a ≠ b) :
    l.getD a "" ≠ l.getD b "" := by
  rw [List.getD_eq_getElem l "" ha, List.getD_eq_getElem l "" hb]
  intro he
  exact hab (List.Nodup.getElem_inj_iff h |>.mp he)

/-- A position strictly between two consecutive multiples of the batch size
is not itself a batch boundary. -/
lemma mid_batch_not_boundary (b m idx : Nat) (hmod : m % b = 0)
    (h1 : m - b < idx) (h2 : idx < m) : idx % b ≠ 0 := by
  intro h0
  rcases Nat.eq_zero_or_pos b with hb | hb
  · rw [hb] at hmod
    simp at hmod
    omega
  · obtain ⟨c, hc⟩ := Nat.dvd_of_mod_eq_zero hmod
    obtain ⟨d, hd⟩ := Nat.dvd_of_mod_eq_zero h0
    subst hc hd
    rcases Nat.eq_zero_or_pos c with hc0 | hc0
    · rw [hc0] at h2; simp at h2
    · obtain ⟨c2, rfl⟩ := Nat.exists_eq_succ_of_ne_zero (Nat.pos_iff_ne_zero.mp hc0)
      have he : b * (c2 + 1) - b = b * c2 := by
        rw [Nat.mul_succ]; omega
      rw [he] at h1
      have hd1 : c2 < d := Nat.lt_of_mul_lt_mul_left h1
      have hd2 : d < c2 + 1 := Nat.lt_of_mul_lt_mul_left h2
      omega

/-- Running the batch loop of a job whose in-memory status is no longer
`'processing'`, from a mid-batch position: each remaining item of the current
batch is still attempted (one snapshot persisted per item), and at the next
batch boundary `m` the loop observes the status and returns, leaving the
queue untouched and every record of a later item unchanged. -/
lemma drain_batch (env : Nat → JobEnv) (j : ProcessingJob) (q m : Nat)
    (hmod : m % j.data.batchSize = 0)
    (hm : m < (env q).urls.length)
    (hnodup : (env q).urls.Nodup)
    (hst : j.status ≠ .processing) :
    ∀ t : Nat, ∀ s : Sys, ∀ r : RunState,
      s.run = some r → r.qid = q →
      findJob s.qs.jobs q = some j →
      r.idx + t = m →
      m - j.data.batchSize < r.idx →
      (exec env (List.replicate (t + 1) Cmd.stepItem) s).run = none ∧
      (exec env (List.replicate (t + 1) Cmd.stepItem) s).qs = s.qs ∧
      (exec env (List.replicate (t + 1) Cmd.stepItem) s).attempts =
        s.attempts ++ attemptSeq q r.idx t ∧
      (exec env (List.replicate (t + 1) Cmd.stepItem) s).jobLog.length =
        s.jobLog.length + t ∧
      (∀ k : Nat, m ≤ k → k < (env q).urls.length →
        firstMatch (exec env (List.replicate (t + 1) Cmd.stepItem) s).profiles
          j.data.jobId ((env q).urls.getD k "") =
        firstMatch s.profiles j.data.jobId ((env q).urls.getD k "")) := by
  intro t
  induction t with
  | zero =>
    intro s r hrun hq hfind hidx hlow
    have hidx0 : r.idx = m := by omega
    have hfind2 : findJob s.qs.jobs r.qid = some j := by rw [hq]; exact hfind
    have hlt : r.idx < (env r.qid).urls.length := by rw [hq, hidx0]; exact hm
    have hb : r.idx % j.data.batchSize = 0 := by rw [hidx0]; exact hmod
    have hhalt := applyStepItem_halt env s r j hrun hfind2 hlt hb hst
    have hex : exec env (List.replicate (0 + 1) Cmd.stepItem) s = { s with run := none } := by
      show exec env [Cmd.stepItem] s = _
      show stepCmd env Cmd.stepItem s = _
      show applyStepItem env s = _
      exact hhalt
    rw [hex]
    exact ⟨rfl, rfl, by simp [attemptSeq], by simp, fun k h1 h2 => rfl⟩
  | succ t2 ih =>
    intro s r hrun hq hfind hidx hlow
    have hidxlt : r.idx < m := by omega
    have hfind2 : findJob s.qs.jobs r.qid = some j := by rw [hq]; exact hfind
    have hlt : r.idx < (env r.qid).urls.length := by rw [hq]; omega
    have hnb : r.idx % j.data.batchSize ≠ 0 :=
      mid_batch_not_boundary j.data.batchSize m r.idx hmod hlow hidxlt
    have hc : ¬ (r.idx % j.data.batchSize = 0 ∧ j.status ≠ .processing) :=
      fun hx => hnb hx.1
    have hproc := applyStepItem_proc env s r j hrun hfind2 hlt hc
    have hex : exec env (List.replicate (t2 + 1 + 1) Cmd.stepItem) s =
        exec env (List.replicate (t2 + 1) Cmd.stepItem) (applyStepItem env s) := by
      rfl
    set s2 := applyStepItem env s with hs2
    have hrun2 : ∃ r2 : RunState, s2.run = some r2 ∧ r2.qid = q ∧ r2.idx = r.idx + 1 := by
      rw [hproc]
      exact ⟨_, rfl, hq, rfl⟩
    obtain ⟨r2, hr2run, hr2q, hr2idx⟩ := hrun2
    have hqs2 : s2.qs = s.qs := by rw [hproc]
    have hfind3 : findJob s2.qs.jobs q = some j := by rw [hqs2]; exact hfind
    have hatt2 : s2.attempts = s.attempts ++ [(q, r.idx)] := by
      rw [hproc, hq]
    have hlog2 : s2.jobLog.length = s.jobLog.length + 1 := by
      rw [hproc]
      simp
    have hprof2 : ∀ k : Nat, m ≤ k → k < (env q).urls.length →
        firstMatch s2.profiles j.data.jobId ((env q).urls.getD k "") =
        firstMatch s.profiles j.data.jobId ((env q).urls.getD k "") := by
      intro k h1 h2
      rw [hproc]
      simp only
      apply applyItemResult_other
      rw [hq]
      exact nodup_getD_ne (env q).urls hnodup r.idx k (by omega) h2 (by omega)
    have := ih s2 r2 hr2run hr2q hfind3 (by omega) (by omega)
    obtain ⟨c1, c2, c3, c4, c5⟩ := this
    have hex : exec env (List.replicate (t2 + 1 + 1) Cmd.stepItem) s =
        exec env (List.replicate (t2 + 1) Cmd.stepItem) s2 := by
      rw [hs2]
      rfl
    rw [hex]
    refine ⟨c1, by rw [c2, hqs2], ?_, ?_, ?_⟩
    · rw [c3, hatt2, hr2idx]
      simp [attemptSeq]
    · rw [c4, hlog2]
      omega
    · intro k h1 h2
      rw [c5 k h1 h2]
      exact hprof2 k h1 h2

/-- C7: if a job is paused or stopped while batch `N` is being processed
(the run's next index lies inside batch `N`, past its first item), then
running the loop on: every remaining item of batch `N` is still attempted —
one per step, each persisting a snapshot — because the cancellation check
happens only at batch boundaries; at the boundary of batch `N + 1` the loop
observes the status and halts, so no item of any later batch is attempted,
the records of all later items are untouched (still `pending` when they were
`pending`), and the queue state is unchanged. -/
theorem pause_takes_effect_at_batch_boundary (env : Nat → JobEnv) (s : Sys)
    (r : RunState) (j : ProcessingJob) (N : Nat)
    (hrun : s.run = some r) (hfind : findJob s.qs.jobs r.qid = some j)
    (hterm : j.status = .paused ∨ j.status = .failed)
    (hlow : N * j.data.batchSize < r.idx)
    (hhigh : r.idx ≤ (N + 1) * j.data.batchSize)
    (hmore : (N + 1) * j.data.batchSize < (env r.qid).urls.length)
    (hnodup : (env r.qid).urls.Nodup)
    (hpend : ∀ k : Nat, (N + 1) * j.data.batchSize ≤ k →
      k < (env r.qid).urls.length →
      (firstMatch s.profiles j.data.jobId ((env r.qid).urls.getD k "")).map
        (fun p => p.status) = some PStatus.pending) :
    (exec env (List.replicate ((N + 1) * j.data.batchSize - r.idx + 1) Cmd.stepItem)
      s).run = none ∧
    (exec env (List.replicate ((N + 1) * j.data.batchSize - r.idx + 1) Cmd.stepItem)
      s).qs = s.qs ∧
    (exec env (List.replicate ((N + 1) * j.data.batchSize - r.idx + 1) Cmd.stepItem)
      s).attempts = s.attempts ++
        attemptSeq r.qid r.idx ((N + 1) * j.data.batchSize - r.idx) ∧
    (exec env (List.replicate ((N + 1) * j.data.batchSize - r.idx + 1) Cmd.stepItem)
      s).jobLog.length = s.jobLog.length + ((N + 1) * j.data.batchSize - r.idx) ∧
    (∀ k : Nat, (N + 1) * j.data.batchSize ≤ k → k < (env r.qid).urls.length →
      (firstMatch
        (exec env (List.replicate ((N + 1) * j.data.batchSize - r.idx + 1) Cmd.stepItem)
          s).profiles j.data.jobId ((env r.qid).urls.getD k "")).map
        (fun p => p.status) = some PStatus.pending) := by
  have hst : j.status ≠ .processing := by rcases hterm with h | h <;> simp [h]
  have hmul : (N + 1) * j.data.batchSize = N * j.data.batchSize + j.data.batchSize := by
    rw [Nat.succ_mul]
  have hmod : ((N + 1) * j.data.batchSize) % j.data.batchSize = 0 := Nat.mul_mod_left _ _
  have hd := drain_batch env j r.qid ((N + 1) * j.data.batchSize) hmod hmore hnodup hst
    ((N + 1) * j.data.batchSize - r.idx) s r hrun rfl hfind (by omega) (by omega)
  obtain ⟨c1, c2, c3, c4, c5⟩ := hd
  refine ⟨c1, c2, c3, c4, ?_⟩
  intro k h1 h2
  rw [c5 k h1 h2]
  exact hpend k h1 h2

/-- A job with batch size 2 for the C7 witness. -/
def dB : JobData := { jobId := 10, userId := 7, filePath := "b.xlsx", batchSize := 2 }

/-- Four distinct URLs, all succeeding at once. -/
def envFour : Nat → JobEnv := fun _ =>
  { urls := ["https://x/u0", "https://x/u1", "https://x/u2", "https://x/u3"],
    tokenPresent := true, outcome := fun _ _ => none }

/-- A four-item batch-size-2 job paused after its first item was processed:
the run sits mid-batch-0 at index 1. -/
def sPaused : Sys :=
  exec envFour [Cmd.add dB, Cmd.pick, Cmd.stepItem, Cmd.pause 1] initSys

/-- Witness for C7: the paused run still processes item 1 (the rest of batch
0), then halts at the boundary of batch 1; items 2 and 3 stay pending. -/
theorem pause_takes_effect_at_batch_boundary_sample :
    (exec envFour (List.replicate 2 Cmd.stepItem) sPaused).run = none ∧
    (exec envFour (List.replicate 2 Cmd.stepItem) sPaused).qs = sPaused.qs ∧
    (exec envFour (List.replicate 2 Cmd.stepItem) sPaused).attempts =
      sPaused.attempts ++ attemptSeq 1 1 1 ∧
    (exec envFour (List.replicate 2 Cmd.stepItem) sPaused).jobLog.length =
      sPaused.jobLog.length + 1 ∧
    (firstMatch (exec envFour (List.replicate 2 Cmd.stepItem) sPaused).profiles
      dB.jobId ((envFour 1).urls.getD 2 "")).map (fun p => p.status) =
      some PStatus.pending := by
  have h := pause_takes_effect_at_batch_boundary envFour sPaused
    { qid := 1, idx := 1, processed := 1, successful := 1, failures := 0 }
    { id := 1, data := dB, status := .paused, retryCount := 0 } 0
    (by decide) (by decide) (Or.inl rfl) (by decide) (by decide) (by decide) (by decide)
    (by
      intro k h1 h2
      have h1b : 2 ≤ k := h1
      have h2b : k < 4 := h2
      interval_cases k <;> decide)
  exact ⟨h.1, h.2.1, h.2.2.1, h.2.2.2.1, h.2.2.2.2 2 (by decide) (by decide)⟩
